import Mathlib

/-!
Verification of the persistent object-store layer (`abstutil/src/io_native.rs`)
of the abstreet repository, via a shallow embedding in Lean 4.

Modelling conventions:
* The filesystem is an association list from path to byte contents
  (bytes as `List Nat`).  `std::fs` calls that consult the real filesystem
  (`read_dir`, `remove_file` faults, inner `read` results) become explicit
  inputs to the embedded functions.
* A Rust `panic!` becomes the `Outcome.panic` constructor; a normal return
  becomes `Outcome.ok`.
* `std::io::Error` becomes `IOError` (a kind plus a message).
* The serde/bincode codecs are external libraries, not part of this
  repository; they are passed in as explicit `encode`/`decode` parameters.
* Wall-clock telemetry (`Instant`, progress printing, the `Timer`) does not
  affect the values computed and is omitted; `println!` diagnostics that the
  spec talks about are modelled as returned message strings / logs.
-/

namespace AbstUtil

/-- The kinds of `std::io::ErrorKind` the code distinguishes. -/
inductive ErrorKind where
  | notFound
  | permissionDenied
  | other
deriving DecidableEq, Repr

/-- Model of `std::io::Error`: a kind plus a display message. -/
structure IOError where
  kind : ErrorKind
  msg : String
deriving DecidableEq, Repr

/-- Result of running a piece of Rust code that may `panic!`. -/
inductive Outcome (α : Type) where
  | ok : α → Outcome α
  | panic : String → Outcome α
deriving DecidableEq, Repr

/-- Whether an outcome is a `panic!` (process abort). -/
def Outcome.isPanic {α : Type} : Outcome α → Bool
  | .ok _ => false
  | .panic _ => true

/-- The filesystem: an association list from path to file contents (bytes). -/
abbrev FS := List (String × List Nat)

/-- Contents of the file at `path`, if it exists. -/
def fs_lookup (fs : FS) (path : String) : Option (List Nat) :=
  match fs with
  | [] => none
  | (p, b) :: rest => if p = path then some b else fs_lookup rest path

/-- Remove every binding for `path`. -/
def fs_erase (fs : FS) (path : String) : FS :=
  fs.filter (fun pb => pb.1 ≠ path)

/-- Create or overwrite the file at `path` with contents `b`. -/
def fs_insert (fs : FS) (path : String) (b : List Nat) : FS :=
  (path, b) :: fs_erase fs path

/-- Model of Rust `str::ends_with`: the characters of `suffix` are a suffix
of the characters of `s`.  (For UTF-8 strings, byte-level and
codepoint-level suffix tests agree.) -/
def ends_with (s suffix : String) : Bool :=
  suffix.toList.isSuffixOf s.toList

/-- Model of Rust `str::starts_with`: the characters of `pre` are a prefix
of the characters of `s`. -/
def starts_with (s pre : String) : Bool :=
  pre.toList.isPrefixOf s.toList

/-- Characters of a file name strictly before its last dot, or `none` when
the name has no dot (helper for `file_stem`). -/
def stemAux : List Char → Option (List Char)
  | [] => none
  | c :: rest =>
    match stemAux rest with
    | some s => some (c :: s)
    | none => if c = '.' then some [] else none

/-- Model of Rust `Path::file_stem` on a plain file name: the portion before
the last dot, except that a single leading dot (hidden-file marker with no
further dot) is kept as part of the stem. -/
def file_stem (name : String) : String :=
  match name.toList with
  | [] => ""
  | c :: rest =>
    if c = '.' then
      match stemAux rest with
      | some s => String.mk (c :: s)
      | none => name
    else
      match stemAux (c :: rest) with
      | some s => String.mk s
      | none => name

/-- Embeds `maybe_write_json` (io_native.rs lines 13-23): panics unless the
path ends in `.json`, then creates parent directories and writes the encoded
payload.  `to_json` (from `crate::io`, an external serde call) is the
`encJson` parameter. -/
def maybe_write_json {α : Type} (encJson : α → List Nat) (fs : FS)
    (path : String) (obj : α) : Outcome (FS × Except IOError Unit) :=
  if ends_with path ".json" = false then
    .panic ("write_json needs " ++ path ++ " to end with .json")
  else
    .ok (fs_insert fs path (encJson obj), .ok ())

/-- Embeds `write_json` (lines 25-30): panics on an inner error, otherwise
reports the written path. -/
def write_json {α : Type} (encJson : α → List Nat) (fs : FS)
    (path : String) (obj : α) : Outcome (FS × String) :=
  match maybe_write_json encJson fs path obj with
  | .panic m => .panic m
  | .ok (_, .error err) =>
    .panic ("Can't write_json(" ++ path ++ "): " ++ err.msg)
  | .ok (fs', .ok _) => .ok (fs', "Wrote " ++ path)

/-- Modelled from the spec: `maybe_read_json` lives in `crate::io`, which is
not among the provided sources.  Per §4.1 the text-structured read checks the
suffix, may read the whole byte buffer and decode it in memory, and reports
decode and I/O failures as error results rather than aborts. -/
def maybe_read_json {α : Type} (decJson : List Nat → Except String α)
    (fs : FS) (path : String) : Outcome (Except IOError α) :=
  if ends_with path ".json" = false then
    .panic ("read_json needs " ++ path ++ " to end with .json")
  else
    match fs_lookup fs path with
    | none => .ok (.error ⟨.notFound, "No such file or directory"⟩)
    | some bytes =>
      match decJson bytes with
      | .ok v => .ok (.ok v)
      | .error e => .ok (.error ⟨.other, e⟩)

/-- Embeds `maybe_read_binary` (lines 39-48): panics unless the path ends in
`.bin`, opens the file through the timer (an I/O error result if absent), and
maps a bincode decode failure to an `ErrorKind::Other` error result. -/
def maybe_read_binary {α : Type} (decBin : List Nat → Except String α)
    (fs : FS) (path : String) : Outcome (Except IOError α) :=
  if ends_with path ".bin" = false then
    .panic ("read_binary needs " ++ path ++ " to end with .bin")
  else
    match fs_lookup fs path with
    | none => .ok (.error ⟨.notFound, "No such file or directory"⟩)
    | some bytes =>
      match decBin bytes with
      | .ok v => .ok (.ok v)
      | .error e => .ok (.error ⟨.other, e⟩)

/-- Embeds `maybe_write_binary` (lines 50-60): panics unless the path ends in
`.bin`, then creates parent directories and writes the bincode payload. -/
def maybe_write_binary {α : Type} (encBin : α → List Nat) (fs : FS)
    (path : String) (obj : α) : Outcome (FS × Except IOError Unit) :=
  if ends_with path ".bin" = false then
    .panic ("write_binary needs " ++ path ++ " to end with .bin")
  else
    .ok (fs_insert fs path (encBin obj), .ok ())

/-- Embeds `write_binary` (lines 62-67): panics on an inner error, otherwise
reports the written path. -/
def write_binary {α : Type} (encBin : α → List Nat) (fs : FS)
    (path : String) (obj : α) : Outcome (FS × String) :=
  match maybe_write_binary encBin fs path obj with
  | .panic m => .panic m
  | .ok (_, .error err) =>
    .panic ("Can't write_binary(" ++ path ++ "): " ++ err.msg)
  | .ok (fs', .ok _) => .ok (fs', "Wrote " ++ path)

/-- The lexicographic string comparison of `BTreeMap<String, _>` and
`BTreeSet<String>` keys, as an executable test on character lists (for UTF-8
strings, byte-level and codepoint-level lexicographic order agree). -/
def str_lt (a b : String) : Bool :=
  decide (a.toList < b.toList)

/-- Insert into a `BTreeSet<String>` viewed as a strictly sorted list. -/
def insertSortedSet (x : String) : List String → List String
  | [] => [x]
  | y :: t =>
    if str_lt x y then x :: y :: t
    else if x = y then y :: t
    else y :: insertSortedSet x t

/-- Embeds `list_all_objects` (lines 70-93): enumerate the directory, skip
hidden entries, collect file stems into a sorted set.  The `read_dir` result
is an explicit input: a list of file names in filesystem enumeration order,
or an I/O error.  A missing directory yields the empty list; any other
enumeration error panics. -/
def list_all_objects (entries : Except IOError (List String)) :
    Outcome (List String) :=
  match entries with
  | .error e =>
    if e.kind = ErrorKind.notFound then .ok []
    else .panic ("read_dir failed: " ++ e.msg)
  | .ok names =>
    .ok (names.foldl
      (fun acc n =>
        if starts_with n "." then acc else insertSortedSet (file_stem n) acc)
      [])

/-- Insert into a `BTreeMap<String, T>` viewed as a sorted association list;
an existing binding for the same key is overwritten. -/
def insertTree {α : Type} (k : String) (v : α) :
    List (String × α) → List (String × α)
  | [] => [(k, v)]
  | (k', v') :: t =>
    if str_lt k k' then (k, v) :: (k', v') :: t
    else if k = k' then (k, v) :: t
    else (k', v') :: insertTree k v t

/-- Accumulator of a `load_all_objects` run: the `BTreeMap` built so far plus
the "Couldn't load" diagnostics printed so far. -/
structure LoadState (α : Type) where
  tree : List (String × α)
  log : List String
deriving DecidableEq, Repr

/-- One iteration of the `load_all_objects` loop (lines 102-131): skip hidden
entries, dispatch on the suffix (panicking on an unrecognized one), insert a
successful decode into the tree, log a failure and continue. -/
def load_all_step {α : Type} (decJson decBin : List Nat → Except String α)
    (fs : FS) (dir : String) (st : LoadState α) (name : String) :
    Outcome (LoadState α) :=
  if starts_with name "." then .ok st
  else
    let full_path := dir ++ "/" ++ name
    let res : Outcome (Except IOError α) :=
      if ends_with name ".json" then maybe_read_json decJson fs full_path
      else if ends_with name ".bin" then maybe_read_binary decBin fs full_path
      else .panic ("Don't know what " ++ full_path ++ " is")
    match res with
    | .panic m => .panic m
    | .ok (.ok v) => .ok ⟨insertTree (file_stem name) v st.tree, st.log⟩
    | .ok (.error err) =>
      .ok ⟨st.tree, st.log ++ ["Couldn't load " ++ full_path ++ ": " ++ err.msg]⟩

/-- Left fold of a possibly-panicking step over a list; the first panic
aborts the whole fold. -/
def foldOutcome {β σ : Type} (f : β → σ → Outcome β) : β → List σ → Outcome β
  | b, [] => .ok b
  | b, x :: t =>
    match f b x with
    | .ok b' => foldOutcome f b' t
    | .panic m => .panic m

/-- Embeds `load_all_objects` (lines 97-137): enumerate the directory, run
the per-entry loop, and return the sorted tree (paired here with the
diagnostic log).  A missing directory yields the empty result; any other
enumeration error panics. -/
def load_all_objects {α : Type} (decJson decBin : List Nat → Except String α)
    (fs : FS) (dir : String) (entries : Except IOError (List String)) :
    Outcome (List (String × α) × List String) :=
  match entries with
  | .error e =>
    if e.kind = ErrorKind.notFound then .ok ([], [])
    else .panic ("read_dir failed: " ++ e.msg)
  | .ok names =>
    match foldOutcome (load_all_step decJson decBin fs dir) ⟨[], []⟩ names with
    | .ok st => .ok (st.tree, st.log)
    | .panic m => .panic m

/-- The decode result for one non-hidden directory entry whose suffix is
recognized, as the spec describes the per-entry dispatch: `none` for a hidden
entry, otherwise the result of the format-appropriate read. -/
def readEntry {α : Type} (decJson decBin : List Nat → Except String α)
    (fs : FS) (dir : String) (name : String) : Option (Except IOError α) :=
  if starts_with name "." then none
  else if ends_with name ".json" then
    match maybe_read_json decJson fs (dir ++ "/" ++ name) with
    | .ok r => some r
    | .panic _ => none
  else
    match maybe_read_binary decBin fs (dir ++ "/" ++ name) with
    | .ok r => some r
    | .panic _ => none

/-- The tree-building effect of one non-panicking `load_all_objects` entry:
insert a successful decode under its stem, leave the tree alone otherwise. -/
def loadFoldStep {α : Type} (decJson decBin : List Nat → Except String α)
    (fs : FS) (dir : String) (tr : List (String × α)) (n : String) :
    List (String × α) :=
  match readEntry decJson decBin fs dir n with
  | some (.ok v) => insertTree (file_stem n) v tr
  | _ => tr

/-- The diagnostic printed for one `load_all_objects` entry, if any: a failed
read or decode logs a "Couldn't load" line naming the file. -/
def loadLogEntry {α : Type} (decJson decBin : List Nat → Except String α)
    (fs : FS) (dir : String) (n : String) : Option String :=
  match readEntry decJson decBin fs dir n with
  | some (.error err) =>
    some ("Couldn't load " ++ (dir ++ "/" ++ n) ++ ": " ++ err.msg)
  | _ => none

/-- Embeds the `FileWithProgress` state (lines 141-149).  The `Instant`
fields are wall-clock telemetry that only drives throttled progress printing
and are omitted. -/
structure FileWithProgress where
  path : String
  processed_bytes : Nat
  total_bytes : Nat
deriving DecidableEq, Repr

/-- Embeds `FileWithProgress::new` (lines 155-182): open the file, capture
the total byte count from metadata (here, the file's length in the modelled
filesystem), start the processed count at zero. -/
def FileWithProgress.new (fs : FS) (path : String) :
    Except IOError FileWithProgress :=
  match fs_lookup fs path with
  | none => .error ⟨.notFound, "No such file or directory"⟩
  | some bytes => .ok ⟨path, 0, bytes.length⟩

/-- Embeds `FileWithProgress::read` (lines 186-222).  The inner
`BufReader::read` result is an explicit input: an I/O error (propagated
without touching the count) or the number of bytes actually read.  The count
is incremented and the overrun check panics when it exceeds the total. -/
def FileWithProgress.read (s : FileWithProgress)
    (innerResult : Except IOError Nat) :
    Outcome (FileWithProgress × Except IOError Nat) :=
  match innerResult with
  | .error e => .ok (s, .error e)
  | .ok bytes =>
    let processed := s.processed_bytes + bytes
    if s.total_bytes < processed then
      .panic (toString processed ++ " is too many bytes read from " ++ s.path)
    else
      .ok (⟨s.path, processed, s.total_bytes⟩, .ok bytes)

/-- Drive a `FileWithProgress` through a sequence of inner read results,
stopping at the first panic. -/
def runReads (s : FileWithProgress) :
    List (Except IOError Nat) → Outcome FileWithProgress
  | [] => .ok s
  | r :: rs =>
    match FileWithProgress.read s r with
    | .panic m => .panic m
    | .ok (s', _) => runReads s' rs

/-- Model of `std::fs::remove_file`: an environment-injected fault (`fault`,
e.g. permission denied) fails without touching the filesystem; otherwise
removing an absent file fails with `NotFound` and removing a present file
succeeds. -/
def remove_file (fs : FS) (path : String) (fault : Option IOError) :
    FS × Except IOError Unit :=
  match fault with
  | some e => (fs, .error e)
  | none =>
    match fs_lookup fs path with
    | some _ => (fs_erase fs path, .ok ())
    | none => (fs, .error ⟨.notFound, "No such file or directory"⟩)

/-- Embeds `delete_file` (lines 245-252): try to remove, report "Deleted" on
success and "doesn't exist, so not deleting it" on any failure; never panics
and never returns an error. -/
def delete_file (fs : FS) (path : String) (fault : Option IOError) :
    FS × String :=
  match remove_file fs path fault with
  | (fs', .ok _) => (fs', "Deleted " ++ path)
  | (fs', .error _) => (fs', path ++ " doesn't exist, so not deleting it")

/-! Basic lemmas about the modelled filesystem and strings. -/

theorem fs_lookup_insert (fs : FS) (p : String) (b : List Nat) :
    fs_lookup (fs_insert fs p b) p = some b := by
  simp [fs_insert, fs_lookup]

theorem fs_lookup_erase (fs : FS) (p : String) :
    fs_lookup (fs_erase fs p) p = none := by
  induction fs with
  | nil => rfl
  | cons hd tl ih =>
    rcases hd with ⟨q, b⟩
    by_cases h : q = p
    · simpa [fs_erase, List.filter_cons, h] using ih
    · simpa [fs_erase, List.filter_cons, h, fs_lookup] using ih

theorem ends_with_append (a b s : String) (h : ends_with b s = true) :
    ends_with (a ++ b) s = true := by
  simp only [ends_with, List.isSuffixOf_iff_suffix, String.toList,
    String.data_append] at h ⊢
  exact h.trans (List.suffix_append _ _)

/-- A concrete toy codec used to instantiate witnesses: a number is encoded
as a one-element byte list. -/
def encNat : Nat → List Nat := fun n => [n]

/-- Decoder matching `encNat`; any other shape is a decode failure. -/
def decNat : List Nat → Except String Nat
  | [n] => .ok n
  | _ => .error "bad payload"

/-- C1: writing a serializable value with the binary format and then reading
the path back yields an equal value, and independently the same round trip
holds for the text-structured format, provided each path carries the
matching suffix and the external codec round-trips the value. -/
theorem write_then_read_roundtrip {α : Type}
    (encBin : α → List Nat) (decBin : List Nat → Except String α)
    (encJson : α → List Nat) (decJson : List Nat → Except String α)
    (fs : FS) (pB pJ : String) (v : α)
    (hB : ends_with pB ".bin" = true) (hrtB : decBin (encBin v) = .ok v)
    (hJ : ends_with pJ ".json" = true) (hrtJ : decJson (encJson v) = .ok v) :
    write_binary encBin fs pB v = .ok (fs_insert fs pB (encBin v), "Wrote " ++ pB)
    ∧ maybe_read_binary decBin (fs_insert fs pB (encBin v)) pB = .ok (.ok v)
    ∧ write_json encJson fs pJ v = .ok (fs_insert fs pJ (encJson v), "Wrote " ++ pJ)
    ∧ maybe_read_json decJson (fs_insert fs pJ (encJson v)) pJ = .ok (.ok v) := by
  refine ⟨?_, ?_, ?_, ?_⟩
  · simp [write_binary, maybe_write_binary, hB]
  · simp [maybe_read_binary, hB, fs_lookup_insert, hrtB]
  · simp [write_json, maybe_write_json, hJ]
  · simp [maybe_read_json, hJ, fs_lookup_insert, hrtJ]

/-- Witness for C1 at the concrete codec `encNat`/`decNat` and value 42. -/
theorem write_then_read_roundtrip_witness :
    write_binary encNat [] "dir/x.bin" 42
      = .ok (fs_insert [] "dir/x.bin" (encNat 42), "Wrote " ++ "dir/x.bin")
    ∧ maybe_read_binary decNat (fs_insert [] "dir/x.bin" (encNat 42)) "dir/x.bin"
      = .ok (.ok 42)
    ∧ write_json encNat [] "dir/x.json" 42
      = .ok (fs_insert [] "dir/x.json" (encNat 42), "Wrote " ++ "dir/x.json")
    ∧ maybe_read_json decNat (fs_insert [] "dir/x.json" (encNat 42)) "dir/x.json"
      = .ok (.ok 42) :=
  write_then_read_roundtrip encNat decNat encNat decNat [] "dir/x.bin" "dir/x.json"
    42 (by decide) rfl (by decide) rfl

/-- C6: a write whose path lacks the suffix of the requested format panics (a
fatal configuration error) regardless of the value being written, both in the
fallible entry points and in the public wrappers. -/
theorem write_wrong_suffix_fatal {α : Type}
    (encJson encBin : α → List Nat) (fs : FS) (pJ pB : String) (v : α)
    (hJ : ends_with pJ ".json" = false) (hB : ends_with pB ".bin" = false) :
    maybe_write_json encJson fs pJ v
      = .panic ("write_json needs " ++ pJ ++ " to end with .json")
    ∧ maybe_write_binary encBin fs pB v
      = .panic ("write_binary needs " ++ pB ++ " to end with .bin")
    ∧ write_json encJson fs pJ v
      = .panic ("write_json needs " ++ pJ ++ " to end with .json")
    ∧ write_binary encBin fs pB v
      = .panic ("write_binary needs " ++ pB ++ " to end with .bin") := by
  refine ⟨?_, ?_, ?_, ?_⟩ <;>
    simp [write_json, write_binary, maybe_write_json, maybe_write_binary, hJ, hB]

/-- Witness for C6: writing with swapped suffixes panics. -/
theorem write_wrong_suffix_fatal_witness :
    maybe_write_json encNat [] "x.bin" 0
      = .panic ("write_json needs " ++ "x.bin" ++ " to end with .json")
    ∧ maybe_write_binary encNat [] "x.json" 0
      = .panic ("write_binary needs " ++ "x.json" ++ " to end with .bin")
    ∧ write_json encNat [] "x.bin" 0
      = .panic ("write_json needs " ++ "x.bin" ++ " to end with .json")
    ∧ write_binary encNat [] "x.json" 0
      = .panic ("write_binary needs " ++ "x.json" ++ " to end with .bin") :=
  write_wrong_suffix_fatal encNat encNat [] "x.bin" "x.json" 0 (by decide) (by decide)

/-- C5: a missing directory is a success case yielding an empty sequence from
`list_all_objects` and an empty map from `load_all_objects`, while any other
enumeration failure is fatal for both. -/
theorem missing_dir_is_empty {α : Type}
    (decJson decBin : List Nat → Except String α) (fs : FS) (dir : String)
    (e : IOError) :
    (e.kind = ErrorKind.notFound →
      list_all_objects (.error e) = .ok []
      ∧ load_all_objects decJson decBin fs dir (.error e) = .ok ([], []))
    ∧ (e.kind ≠ ErrorKind.notFound →
      (list_all_objects (.error e)).isPanic = true
      ∧ (load_all_objects decJson decBin fs dir (.error e)).isPanic = true) := by
  constructor
  · intro h
    constructor <;> simp [list_all_objects, load_all_objects, h]
  · intro h
    constructor <;> simp [list_all_objects, load_all_objects, h, Outcome.isPanic]

/-- Witness for C5 at a `NotFound` and a `PermissionDenied` enumeration
error. -/
theorem missing_dir_is_empty_witness :
    (list_all_objects (.error ⟨.notFound, "m"⟩) = .ok []
      ∧ load_all_objects decNat decNat [] "dir" (.error ⟨.notFound, "m"⟩) = .ok ([], []))
    ∧ ((list_all_objects (.error ⟨.permissionDenied, "m"⟩)).isPanic = true
      ∧ (load_all_objects decNat decNat [] "dir"
          (.error ⟨.permissionDenied, "m"⟩)).isPanic = true) :=
  ⟨(missing_dir_is_empty decNat decNat [] "dir" ⟨.notFound, "m"⟩).1 rfl,
   (missing_dir_is_empty decNat decNat [] "dir" ⟨.permissionDenied, "m"⟩).2
     (by decide)⟩

/-- C9: `delete_file` is idempotent and never raises (in the embedding it is
a total function with no panic outcome): the second of two consecutive calls
always reports absence, and the first call reports the removal exactly when
the file existed. -/
theorem delete_file_idempotent (fs : FS) (path : String) :
    (delete_file (delete_file fs path none).1 path none).2
      = path ++ " doesn't exist, so not deleting it"
    ∧ ((fs_lookup fs path).isSome = true →
        (delete_file fs path none).2 = "Deleted " ++ path)
    ∧ (fs_lookup fs path = none →
        (delete_file fs path none).2
          = path ++ " doesn't exist, so not deleting it") := by
  rcases h : fs_lookup fs path with _ | b
  · refine ⟨?_, ?_, ?_⟩
    · simp [delete_file, remove_file, h]
    · intro hs
      simp at hs
    · intro _
      simp [delete_file, remove_file, h]
  · refine ⟨?_, ?_, ?_⟩
    · simp [delete_file, remove_file, h, fs_lookup_erase]
    · intro _
      simp [delete_file, remove_file, h]
    · intro hn
      cases hn

/-- Witness for C9 on a one-file filesystem. -/
theorem delete_file_idempotent_witness :
    (delete_file (delete_file [("p", [1])] "p" none).1 "p" none).2
      = "p" ++ " doesn't exist, so not deleting it"
    ∧ ((fs_lookup [("p", [1])] "p").isSome = true →
        (delete_file [("p", [1])] "p" none).2 = "Deleted " ++ "p")
    ∧ (fs_lookup [("p", [1])] "p" = none →
        (delete_file [("p", [1])] "p" none).2
          = "p" ++ " doesn't exist, so not deleting it") :=
  delete_file_idempotent [("p", [1])] "p"

/-- C10: every removal failure — absence or any environment fault such as
permission denied — produces the same "doesn't exist, so not deleting it"
report and a normal return; the cause is never distinguished and no error is
propagated. -/
theorem delete_file_ignores_failure_cause (fs : FS) (path : String)
    (e : IOError) :
    delete_file fs path (some e)
      = (fs, path ++ " doesn't exist, so not deleting it") := rfl

/-- Successful reads keep the processed-byte count at or below the total. -/
theorem runReads_ok_le (reads : List (Except IOError Nat)) :
    ∀ s s' : FileWithProgress, s.processed_bytes ≤ s.total_bytes →
      runReads s reads = .ok s' → s'.processed_bytes ≤ s'.total_bytes := by
  induction reads with
  | nil =>
    intro s s' h hr
    simp [runReads] at hr
    exact hr ▸ h
  | cons r rs ih =>
    intro s s' h hr
    rcases r with e | bytes
    · simp [runReads, FileWithProgress.read] at hr
      exact ih s s' h hr
    · by_cases hov : s.total_bytes < s.processed_bytes + bytes
      · simp [runReads, FileWithProgress.read, hov] at hr
      · simp [runReads, FileWithProgress.read, hov] at hr
        exact ih _ s' (Nat.le_of_not_lt hov) hr

/-- C3: starting from a freshly constructed `FileWithProgress`, the
processed-byte count after any sequence of successful reads never exceeds
the total captured from metadata at construction, and a read that would push
the count past the total panics instead of returning the bytes. -/
theorem progress_reader_never_overruns (fs : FS) (path : String)
    (fwp s' s : FileWithProgress) (reads : List (Except IOError Nat))
    (bytes : Nat)
    (hnew : FileWithProgress.new fs path = .ok fwp)
    (hrun : runReads fwp reads = .ok s')
    (hover : s.total_bytes < s.processed_bytes + bytes) :
    s'.processed_bytes ≤ s'.total_bytes
    ∧ FileWithProgress.read s (.ok bytes)
        = .panic (toString (s.processed_bytes + bytes)
            ++ " is too many bytes read from " ++ s.path) := by
  constructor
  · have h0 : fwp.processed_bytes ≤ fwp.total_bytes := by
      unfold FileWithProgress.new at hnew
      rcases hl : fs_lookup fs path with _ | contents
      · rw [hl] at hnew
        cases hnew
      · rw [hl] at hnew
        cases hnew
        simp
    exact runReads_ok_le reads fwp s' h0 hrun
  · simp [FileWithProgress.read, hover]

/-- Witness for C3: two successful reads of a three-byte file stay in
bounds, and an oversized read on another reader panics. -/
theorem progress_reader_never_overruns_witness :
    (⟨"p", 3, 3⟩ : FileWithProgress).processed_bytes
      ≤ (⟨"p", 3, 3⟩ : FileWithProgress).total_bytes
    ∧ FileWithProgress.read ⟨"q", 2, 3⟩ (.ok 5)
        = .panic (toString (2 + 5) ++ " is too many bytes read from " ++ "q") :=
  progress_reader_never_overruns [("p", [1, 2, 3])] "p" ⟨"p", 0, 3⟩ ⟨"p", 3, 3⟩
    ⟨"q", 2, 3⟩ [.ok 2, .ok 1] 5 rfl rfl (by decide)

/-- Dropping hidden names from the enumeration does not change the
`list_all_objects` fold, since its step skips them. -/
theorem foldl_list_skip_hidden (entries : List String) :
    ∀ acc : List String,
      entries.foldl
        (fun acc n =>
          if starts_with n "." then acc else insertSortedSet (file_stem n) acc)
        acc
      = (entries.filter (fun n => !(starts_with n "."))).foldl
          (fun acc n =>
            if starts_with n "." then acc else insertSortedSet (file_stem n) acc)
          acc := by
  induction entries with
  | nil => intro acc; rfl
  | cons n t ih =>
    intro acc
    by_cases hn : starts_with n "." = true
    · simp [List.filter_cons, hn, ih]
    · simp only [Bool.not_eq_true] at hn
      simp [List.filter_cons, hn, ih]

/-- Dropping hidden names from the enumeration does not change the
`load_all_objects` fold, since its step skips them. -/
theorem foldOutcome_load_skip_hidden {α : Type}
    (decJson decBin : List Nat → Except String α) (fs : FS) (dir : String)
    (entries : List String) :
    ∀ st : LoadState α,
      foldOutcome (load_all_step decJson decBin fs dir) st entries
      = foldOutcome (load_all_step decJson decBin fs dir) st
          (entries.filter (fun n => !(starts_with n "."))) := by
  induction entries with
  | nil => intro st; rfl
  | cons n t ih =>
    intro st
    by_cases hn : starts_with n "." = true
    · simp [foldOutcome, List.filter_cons, hn, load_all_step, ih]
    · simp only [Bool.not_eq_true] at hn
      simp only [foldOutcome, List.filter_cons, hn, Bool.not_false, if_pos]
      cases hstep : load_all_step decJson decBin fs dir st n with
      | ok st' => simp [ih]
      | panic m => rfl

/-- C7: hidden directory entries (names beginning with a dot) are invisible
to both `list_all_objects` and `load_all_objects`: each returns exactly what
it would return had the filesystem never enumerated those entries, so no key
is produced for them and no decode of them is attempted. -/
theorem hidden_entries_invisible {α : Type}
    (decJson decBin : List Nat → Except String α) (fs : FS) (dir : String)
    (entries : List String) :
    list_all_objects (.ok entries)
      = list_all_objects (.ok (entries.filter (fun n => !(starts_with n "."))))
    ∧ load_all_objects decJson decBin fs dir (.ok entries)
      = load_all_objects decJson decBin fs dir
          (.ok (entries.filter (fun n => !(starts_with n ".")))) := by
  constructor
  · simp [list_all_objects, foldl_list_skip_hidden]
  · simp [load_all_objects, foldOutcome_load_skip_hidden]

/-- A fold panics whenever some list element makes the step panic from every
state. -/
theorem foldOutcome_isPanic_of_mem {β σ : Type} (f : β → σ → Outcome β)
    (x : σ) (m : String) (hf : ∀ b, f b x = .panic m) :
    ∀ (l : List σ) (b : β), x ∈ l → (foldOutcome f b l).isPanic = true := by
  intro l
  induction l with
  | nil =>
    intro b h
    cases h
  | cons y t ih =>
    intro b hmem
    rcases List.mem_cons.mp hmem with h | h
    · subst h
      simp [foldOutcome, hf b, Outcome.isPanic]
    · cases hfb : f b y with
      | ok b' => simpa [foldOutcome, hfb] using ih b' h
      | panic m' => simp [foldOutcome, hfb, Outcome.isPanic]

/-- C8: a non-hidden entry whose name ends in neither recognized suffix makes
`load_all_objects` panic (a fatal configuration error) instead of being
skipped the way decode and I/O failures are. -/
theorem unknown_suffix_fatal {α : Type}
    (decJson decBin : List Nat → Except String α) (fs : FS) (dir : String)
    (entries : List String) (name : String)
    (hmem : name ∈ entries)
    (hhid : starts_with name "." = false)
    (hjson : ends_with name ".json" = false)
    (hbin : ends_with name ".bin" = false) :
    (load_all_objects decJson decBin fs dir (.ok entries)).isPanic = true := by
  have hstep : ∀ st : LoadState α,
      load_all_step decJson decBin fs dir st name
        = .panic ("Don't know what " ++ (dir ++ "/" ++ name) ++ " is") := by
    intro st
    simp [load_all_step, hhid, hjson, hbin]
  have hfold := foldOutcome_isPanic_of_mem (load_all_step decJson decBin fs dir)
    name _ hstep entries ⟨[], []⟩ hmem
  cases hres : foldOutcome (load_all_step decJson decBin fs dir) ⟨[], []⟩ entries with
  | ok st =>
    rw [hres] at hfold
    cases hfold
  | panic m =>
    simp [load_all_objects, hres, Outcome.isPanic]

/-- Witness for C8: a directory containing `a.txt` makes the load panic. -/
theorem unknown_suffix_fatal_witness :
    (load_all_objects decNat decNat [] "dir" (.ok ["a.txt"])).isPanic = true :=
  unknown_suffix_fatal decNat decNat [] "dir" ["a.txt"] "a.txt" (by decide)
    (by decide) (by decide) (by decide)

/-- On an entry with a recognized suffix (or a hidden one), the per-entry
loop step never panics: it reproduces the dispatch described by `readEntry`,
inserting a success and logging a failure. -/
theorem load_all_step_eq {α : Type}
    (decJson decBin : List Nat → Except String α) (fs : FS) (dir : String)
    (st : LoadState α) (n : String)
    (h : starts_with n "." = false →
      (ends_with n ".json" = true ∨ ends_with n ".bin" = true)) :
    load_all_step decJson decBin fs dir st n
      = .ok (match readEntry decJson decBin fs dir n with
          | none => st
          | some (.ok v) => ⟨insertTree (file_stem n) v st.tree, st.log⟩
          | some (.error err) =>
            ⟨st.tree,
             st.log ++ ["Couldn't load " ++ (dir ++ "/" ++ n) ++ ": " ++ err.msg]⟩) := by
  by_cases hhid : starts_with n "." = true
  · simp [load_all_step, readEntry, hhid]
  · simp only [Bool.not_eq_true] at hhid
    by_cases hj : ends_with n ".json" = true
    · have hfull := ends_with_append (dir ++ "/") n ".json" hj
      simp only [load_all_step, readEntry, hhid, Bool.false_eq_true, if_false, hj,
        if_true, maybe_read_json, hfull]
      cases hlk : fs_lookup fs (dir ++ "/" ++ n) with
      | none => simp [hlk]
      | some bytes =>
        cases hdec : decJson bytes with
        | ok v => simp [hlk, hdec]
        | error e => simp [hlk, hdec]
    · rcases h hhid with hj' | hb
      · exact absurd hj' hj
      · have hfull := ends_with_append (dir ++ "/") n ".bin" hb
        simp only [Bool.not_eq_true] at hj
        simp only [load_all_step, readEntry, hhid, Bool.false_eq_true, if_false, hj,
          hb, if_true, maybe_read_binary, hfull]
        cases hlk : fs_lookup fs (dir ++ "/" ++ n) with
        | none => simp [hlk]
        | some bytes =>
          cases hdec : decBin bytes with
          | ok v => simp [hlk, hdec]
          | error e => simp [hlk, hdec]

/-- Under the recognized-suffix hypothesis, the per-entry loop is a plain
fold: successes collect into the sorted tree and failures append their
diagnostics to the log. -/
theorem foldOutcome_load_eq {α : Type}
    (decJson decBin : List Nat → Except String α) (fs : FS) (dir : String) :
    ∀ entries : List String,
      (∀ n ∈ entries, starts_with n "." = false →
        (ends_with n ".json" = true ∨ ends_with n ".bin" = true)) →
      ∀ st : LoadState α,
      foldOutcome (load_all_step decJson decBin fs dir) st entries
      = .ok ⟨entries.foldl (loadFoldStep decJson decBin fs dir) st.tree,
            st.log ++ entries.filterMap (loadLogEntry decJson decBin fs dir)⟩ := by
  intro entries
  induction entries with
  | nil =>
    intro _ st
    simp [foldOutcome]
  | cons n t ih =>
    intro hsuf st
    have hd := load_all_step_eq decJson decBin fs dir st n
      (hsuf n (List.mem_cons_self n t))
    have ht : ∀ n' ∈ t, starts_with n' "." = false →
        (ends_with n' ".json" = true ∨ ends_with n' ".bin" = true) :=
      fun n' hn' => hsuf n' (List.mem_cons_of_mem n hn')
    simp only [foldOutcome, hd]
    cases hre : readEntry decJson decBin fs dir n with
    | none => simp [hre, loadFoldStep, loadLogEntry, ih ht st]
    | some r =>
      cases r with
      | ok v =>
        simp [hre, loadFoldStep, loadLogEntry,
          ih ht ⟨insertTree (file_stem n) v st.tree, st.log⟩]
      | error err =>
        simp [hre, loadFoldStep, loadLogEntry, ih ht ⟨st.tree,
          st.log ++ ["Couldn't load " ++ (dir ++ "/" ++ n) ++ ": " ++ err.msg]⟩]

/-- C2: when every non-hidden entry has a recognized suffix,
`load_all_objects` never aborts: it returns exactly the map collecting the
entries that decode successfully, and the log carries one "Couldn't load"
diagnostic naming the file for each entry whose read or decode failed, while
all remaining entries are still processed. -/
theorem load_all_skips_damaged_entries {α : Type}
    (decJson decBin : List Nat → Except String α) (fs : FS) (dir : String)
    (entries : List String)
    (hsuf : ∀ n ∈ entries, starts_with n "." = false →
      (ends_with n ".json" = true ∨ ends_with n ".bin" = true)) :
    load_all_objects decJson decBin fs dir (.ok entries)
      = .ok (entries.foldl (loadFoldStep decJson decBin fs dir) [],
            entries.filterMap (loadLogEntry decJson decBin fs dir)) := by
  have h := foldOutcome_load_eq decJson decBin fs dir entries hsuf ⟨[], []⟩
  simp [load_all_objects, h]

/-- Witness for C2 at the spec's example: a valid `a.bin` next to a corrupt
`b.bin` yields only the key `"a"` plus one logged diagnostic for `b.bin`. -/
theorem load_all_skips_damaged_entries_witness :
    load_all_objects decNat decNat [("dir/a.bin", [5]), ("dir/b.bin", [])] "dir"
        (.ok ["a.bin", "b.bin"])
      = .ok (["a.bin", "b.bin"].foldl
              (loadFoldStep decNat decNat
                [("dir/a.bin", [5]), ("dir/b.bin", [])] "dir")
              [],
            ["a.bin", "b.bin"].filterMap
              (loadLogEntry decNat decNat
                [("dir/a.bin", [5]), ("dir/b.bin", [])] "dir")) :=
  load_all_skips_damaged_entries decNat decNat
    [("dir/a.bin", [5]), ("dir/b.bin", [])] "dir" ["a.bin", "b.bin"] (by decide)

/-- The executable key comparison agrees with the string order. -/
theorem str_lt_iff (a b : String) : str_lt a b = true ↔ a < b := by
  simp [str_lt, String.lt_iff_toList_lt]

theorem str_lt_eq_true_of_lt {a b : String} (h : a < b) : str_lt a b = true :=
  (str_lt_iff a b).mpr h

theorem str_lt_eq_false_of_not_lt {a b : String} (h : ¬a < b) :
    str_lt a b = false := by
  rcases hb : str_lt a b with _ | _
  · rfl
  · exact absurd ((str_lt_iff a b).mp hb) h

/-- Everything in `insertTree k v tr` is the new pair or was in `tr`. -/
theorem mem_insertTree {α : Type} (k : String) (v : α) :
    ∀ (tr : List (String × α)) (q : String × α),
      q ∈ insertTree k v tr → q = (k, v) ∨ q ∈ tr := by
  intro tr
  induction tr with
  | nil =>
    intro q hq
    simp [insertTree] at hq
    exact Or.inl hq
  | cons hd t ih =>
    rcases hd with ⟨k', v'⟩
    intro q hq
    rcases hblt : str_lt k k' with _ | _
    · by_cases heq : k = k'
      · simp only [insertTree, hblt, Bool.false_eq_true, if_false] at hq
        rw [if_pos heq] at hq
        rcases List.mem_cons.mp hq with h | h
        · exact Or.inl (by rw [h, heq])
        · exact Or.inr (List.mem_cons_of_mem _ h)
      · simp only [insertTree, hblt, Bool.false_eq_true, if_false, heq] at hq
        rcases List.mem_cons.mp hq with h | h
        · exact Or.inr (h ▸ List.mem_cons_self _ _)
        · rcases ih q h with h' | h'
          · exact Or.inl h'
          · exact Or.inr (List.mem_cons_of_mem _ h')
    · simp only [insertTree, hblt, if_true] at hq
      rcases List.mem_cons.mp hq with h | h
      · exact Or.inl h
      · exact Or.inr h

/-- `insertTree` preserves strict sortedness of the keys. -/
theorem insertTree_pairwise {α : Type} (k : String) (v : α) :
    ∀ tr : List (String × α),
      List.Pairwise (fun p q => p.1 < q.1) tr →
      List.Pairwise (fun p q => p.1 < q.1) (insertTree k v tr) := by
  intro tr
  induction tr with
  | nil =>
    intro _
    simp [insertTree]
  | cons hd t ih =>
    rcases hd with ⟨k', v'⟩
    intro hp
    rcases List.pairwise_cons.mp hp with ⟨hhd, ht⟩
    by_cases h1 : k < k'
    · simp only [insertTree, str_lt_eq_true_of_lt h1, if_true]
      refine List.pairwise_cons.mpr ⟨?_, hp⟩
      intro q hq
      rcases List.mem_cons.mp hq with h | h
      · rw [h]
        exact h1
      · exact lt_trans h1 (hhd q h)
    · by_cases h2 : k = k'
      · subst h2
        simp only [insertTree, str_lt_eq_false_of_not_lt h1, Bool.false_eq_true,
          if_false, if_true]
        exact List.pairwise_cons.mpr ⟨hhd, ht⟩
      · have hgt : k' < k :=
          lt_of_le_of_ne (not_lt.mp h1) (fun he => h2 he.symm)
        simp only [insertTree, str_lt_eq_false_of_not_lt h1, Bool.false_eq_true,
          if_false, h2]
        refine List.pairwise_cons.mpr ⟨?_, ih ht⟩
        intro q hq
        rcases mem_insertTree k v t q hq with h | h
        · rw [h]
          exact hgt
        · exact hhd q h

/-- Inserting under two keys in increasing order commutes. -/
theorem insertTree_comm_lt {α : Type} (k₁ k₂ : String) (hlt : k₁ < k₂)
    (v₁ v₂ : α) :
    ∀ tr : List (String × α),
      insertTree k₁ v₁ (insertTree k₂ v₂ tr)
        = insertTree k₂ v₂ (insertTree k₁ v₁ tr) := by
  have b12 := str_lt_eq_true_of_lt hlt
  have b21 := str_lt_eq_false_of_not_lt (lt_asymm hlt)
  intro tr
  induction tr with
  | nil =>
    simp [insertTree, b12, b21, hlt.ne, hlt.ne']
  | cons hd t ih =>
    rcases hd with ⟨k', v'⟩
    rcases lt_trichotomy k₂ k' with h2 | h2 | h2
    · have b2' := str_lt_eq_true_of_lt h2
      have b1' := str_lt_eq_true_of_lt (lt_trans hlt h2)
      simp [insertTree, b12, b21, b2', b1', hlt.ne']
    · subst h2
      have birr := str_lt_eq_false_of_not_lt (lt_irrefl k₂)
      simp [insertTree, b12, b21, birr, hlt.ne']
    · have b2f := str_lt_eq_false_of_not_lt (lt_asymm h2)
      rcases lt_trichotomy k₁ k' with h1 | h1 | h1
      · have b1' := str_lt_eq_true_of_lt h1
        simp [insertTree, b1', b2f, h2.ne', b21, hlt.ne']
      · subst h1
        have birr1 := str_lt_eq_false_of_not_lt (lt_irrefl k₁)
        simp [insertTree, b21, birr1, b2f, hlt.ne']
      · have b1f := str_lt_eq_false_of_not_lt (lt_asymm h1)
        simp [insertTree, b1f, h1.ne', b2f, h2.ne', ih]

/-- Inserting under two distinct keys commutes. -/
theorem insertTree_comm {α : Type} (k₁ k₂ : String) (hne : k₁ ≠ k₂)
    (v₁ v₂ : α) (tr : List (String × α)) :
    insertTree k₁ v₁ (insertTree k₂ v₂ tr)
      = insertTree k₂ v₂ (insertTree k₁ v₁ tr) := by
  rcases lt_trichotomy k₁ k₂ with h | h | h
  · exact insertTree_comm_lt k₁ k₂ h v₁ v₂ tr
  · exact absurd h hne
  · exact (insertTree_comm_lt k₂ k₁ h v₂ v₁ tr).symm

/-- Two entries commute through the load fold when they are equal or have
distinct stems. -/
theorem loadFoldStep_comm {α : Type}
    (decJson decBin : List Nat → Except String α) (fs : FS) (dir : String)
    (x y : String) (h : x = y ∨ file_stem x ≠ file_stem y)
    (tr : List (String × α)) :
    loadFoldStep decJson decBin fs dir
        (loadFoldStep decJson decBin fs dir tr x) y
      = loadFoldStep decJson decBin fs dir
          (loadFoldStep decJson decBin fs dir tr y) x := by
  rcases h with h | h
  · subst h
    rfl
  · cases hx : readEntry decJson decBin fs dir x with
    | none => simp [loadFoldStep, hx]
    | some rx =>
      cases rx with
      | error e => simp [loadFoldStep, hx]
      | ok vx =>
        cases hy : readEntry decJson decBin fs dir y with
        | none => simp [loadFoldStep, hx, hy]
        | some ry =>
          cases ry with
          | error e => simp [loadFoldStep, hx, hy]
          | ok vy =>
            simp [loadFoldStep, hx, hy,
              insertTree_comm (file_stem y) (file_stem x) (Ne.symm h) vy vx tr]

/-- The load fold keeps the tree strictly sorted by key. -/
theorem foldl_loadFoldStep_pairwise {α : Type}
    (decJson decBin : List Nat → Except String α) (fs : FS) (dir : String) :
    ∀ (entries : List String) (tr : List (String × α)),
      List.Pairwise (fun p q => p.1 < q.1) tr →
      List.Pairwise (fun p q => p.1 < q.1)
        (entries.foldl (loadFoldStep decJson decBin fs dir) tr) := by
  intro entries
  induction entries with
  | nil =>
    intro tr h
    simpa using h
  | cons n t ih =>
    intro tr h
    rw [List.foldl_cons]
    apply ih
    unfold loadFoldStep
    cases readEntry decJson decBin fs dir n with
    | none => exact h
    | some r =>
      cases r with
      | ok v => exact insertTree_pairwise _ _ tr h
      | error e => exact h

/-- C4: when every entry decodes successfully (and stems are distinct, which
the spec's data model assumes of a curated directory), `load_all_objects`
returns the same collection for any filesystem enumeration order of the same
entries, and that collection is strictly sorted lexicographically by key. -/
theorem load_all_sorted_and_order_independent {α : Type}
    (decJson decBin : List Nat → Except String α) (fs : FS) (dir : String)
    (entries₁ entries₂ : List String)
    (res₁ res₂ : List (String × α) × List String)
    (hperm : entries₁.Perm entries₂)
    (hsuf : ∀ n ∈ entries₁, starts_with n "." = false →
      (ends_with n ".json" = true ∨ ends_with n ".bin" = true))
    (hdist : ∀ x ∈ entries₁, ∀ y ∈ entries₁, x ≠ y → file_stem x ≠ file_stem y)
    (hall : ∀ n ∈ entries₁, loadLogEntry decJson decBin fs dir n = none)
    (h₁ : load_all_objects decJson decBin fs dir (.ok entries₁) = .ok res₁)
    (h₂ : load_all_objects decJson decBin fs dir (.ok entries₂) = .ok res₂) :
    res₁ = res₂ ∧ List.Pairwise (fun p q => p.1 < q.1) res₁.1 := by
  have hsuf₂ : ∀ n ∈ entries₂, starts_with n "." = false →
      (ends_with n ".json" = true ∨ ends_with n ".bin" = true) :=
    fun n hn => hsuf n (hperm.mem_iff.mpr hn)
  have hall₂ : ∀ n ∈ entries₂, loadLogEntry decJson decBin fs dir n = none :=
    fun n hn => hall n (hperm.mem_iff.mpr hn)
  have hc₁ := foldOutcome_load_eq decJson decBin fs dir entries₁ hsuf ⟨[], []⟩
  have hc₂ := foldOutcome_load_eq decJson decBin fs dir entries₂ hsuf₂ ⟨[], []⟩
  have he₁ : load_all_objects decJson decBin fs dir (.ok entries₁)
      = .ok (entries₁.foldl (loadFoldStep decJson decBin fs dir) [],
             entries₁.filterMap (loadLogEntry decJson decBin fs dir)) := by
    simp [load_all_objects, hc₁]
  have he₂ : load_all_objects decJson decBin fs dir (.ok entries₂)
      = .ok (entries₂.foldl (loadFoldStep decJson decBin fs dir) [],
             entries₂.filterMap (loadLogEntry decJson decBin fs dir)) := by
    simp [load_all_objects, hc₂]
  rw [he₁] at h₁
  rw [he₂] at h₂
  injection h₁ with h₁
  injection h₂ with h₂
  subst h₁
  subst h₂
  have hfold : entries₁.foldl (loadFoldStep decJson decBin fs dir) []
      = entries₂.foldl (loadFoldStep decJson decBin fs dir) [] := by
    refine hperm.foldl_eq' ?_ []
    intro x hx y hy z
    refine loadFoldStep_comm decJson decBin fs dir x y ?_ z
    by_cases hxy : x = y
    · exact Or.inl hxy
    · exact Or.inr (hdist x hx y hy hxy)
  constructor
  · rw [hfold, List.filterMap_eq_nil_iff.mpr hall,
      List.filterMap_eq_nil_iff.mpr hall₂]
  · exact foldl_loadFoldStep_pairwise decJson decBin fs dir entries₁ []
      (by simp)

/-- Witness for C4 at the spec's example: `b.json`, `a.bin`, `c.json` in two
enumeration orders yield the same collection, with keys `a`, `b`, `c` in
lexicographic order. -/
theorem load_all_sorted_and_order_independent_witness :
    (([("a", 5), ("b", 7), ("c", 9)], []) : List (String × Nat) × List String)
      = (([("a", 5), ("b", 7), ("c", 9)], []) : List (String × Nat) × List String)
    ∧ List.Pairwise (fun p q => p.1 < q.1)
        ((([("a", 5), ("b", 7), ("c", 9)], [])
          : List (String × Nat) × List String)).1 :=
  load_all_sorted_and_order_independent decNat decNat
    [("dir/b.json", [7]), ("dir/a.bin", [5]), ("dir/c.json", [9])] "dir"
    ["b.json", "a.bin", "c.json"] ["a.bin", "b.json", "c.json"]
    ([("a", 5), ("b", 7), ("c", 9)], []) ([("a", 5), ("b", 7), ("c", 9)], [])
    (List.Perm.swap "a.bin" "b.json" ["c.json"])
    (by decide) (by decide) (by decide) rfl rfl

end AbstUtil
